/-
Verification of the longred-forge recipe-maintenance scripts.

Shallow embedding of `scripts/update.py` (recipe updater: release lookup,
asset-name resolution, checksum resolution) and `scripts/build.py`
(builder: skip-existing guard).  Python strings are modelled as `String`
(operating on `String.data : List Char`); network calls are modelled by
oracle functions passed as parameters, and every network call performed
is recorded in an explicit event trace.  `hashlib.sha256(..).hexdigest()`
is modelled by an uninterpreted function parameter `sha256Hex`.
-/
import Mathlib

namespace Forge

/-! ## Character/string helpers (models of Python `str` primitives) -/

/-- Python whitespace for `str.strip()` / `str.split()` (ASCII part). -/
def isSpaceCh (c : Char) : Bool :=
  c = ' ' || c = '\t' || c = '\n' || c = '\r' || c = '\x0b' || c = '\x0c'

/-- Is `p` a prefix of `s` (exact characters)? -/
def isPrefixCh : List Char → List Char → Bool
  | [], _ => true
  | _ :: _, [] => false
  | a :: as, b :: bs => a == b && isPrefixCh as bs

/-- Drop an exact prefix, or fail. -/
def dropPrefixLit : List Char → List Char → Option (List Char)
  | [], cs => some cs
  | _ :: _, [] => none
  | p :: ps, c :: cs => if p == c then dropPrefixLit ps cs else none

/-- Model of Python `needle in hay` (substring containment). -/
def containsSub : List Char → List Char → Bool
  | [], needle => needle.isEmpty
  | c :: t, needle => isPrefixCh needle (c :: t) || containsSub t needle

/-- Model of Python `needle in hay` on `String`. -/
def strContains (hay needle : String) : Bool :=
  containsSub hay.data needle.data

/-- Model of Python `s.replace(old, new)` (all occurrences, left to right;
`old` is nonempty at every use site in the source).  The `fuel` argument
makes the recursion structural; every step consumes at least one character,
so `fuel = s.length` always suffices. -/
def replaceChAux (old new : List Char) : Nat → List Char → List Char
  | 0, s => s
  | _ + 1, [] => []
  | fuel + 1, c :: t =>
    if !old.isEmpty && isPrefixCh old (c :: t) then
      new ++ replaceChAux old new fuel (t.drop (old.length - 1))
    else
      c :: replaceChAux old new fuel t

def replaceCh (old new s : List Char) : List Char :=
  replaceChAux old new s.length s

/-- Model of Python `s.replace(old, new)` on `String`. -/
def pyReplace (s old new : String) : String :=
  String.mk (replaceCh old.data new.data s.data)

/-- Model of Python `s.strip()` (ASCII whitespace). -/
def pyStrip (s : String) : String :=
  String.mk (((s.data.dropWhile isSpaceCh).reverse.dropWhile isSpaceCh).reverse)

/-- Model of Python `s.lstrip("v")`. -/
def lstripV (s : String) : String :=
  String.mk (s.data.dropWhile (fun c => c == 'v'))

/-- Model of Python `s.lower()` (ASCII part). -/
def pyLower (s : String) : String :=
  String.mk (s.data.map Char.toLower)

/-- Model of Python `s.endswith(t)`. -/
def pyEndsWith (s suffix : String) : Bool :=
  isPrefixCh suffix.data.reverse s.data.reverse

/-- Split on a single separator character (keeping empty pieces),
like Python `s.split(sep)` for a one-character separator. -/
def splitOnCh (sep : Char) : List Char → List (List Char)
  | [] => [[]]
  | c :: t =>
    let r := splitOnCh sep t
    if c == sep then [] :: r
    else
      match r with
      | h :: t2 => (c :: h) :: t2
      | [] => [[c]]

/-- Split on a predicate, keeping empty pieces. -/
def splitPredCh (p : Char → Bool) : List Char → List (List Char)
  | [] => [[]]
  | c :: t =>
    let r := splitPredCh p t
    if p c then [] :: r
    else
      match r with
      | h :: t2 => (c :: h) :: t2
      | [] => [[c]]

/-- Model of Python `s.split()` (split on whitespace runs, dropping empties). -/
def splitWs (s : String) : List String :=
  ((splitPredCh isSpaceCh s.data).filter (fun l => !l.isEmpty)).map String.mk

/-- Model of Python `s.splitlines()` for this code's purposes: split on
newline and carriage-return characters (resulting empty lines are skipped by
every caller, so the difference to Python's exact splitting is unobservable). -/
def splitLinesStr (s : String) : List String :=
  ((splitOnCh '\n' s.data).flatMap (splitOnCh '\r')).map String.mk

/-- Python truthiness of an optional string (`None` and `""` are falsy). -/
def truthy : Option String → Bool
  | none => false
  | some s => !s.isEmpty

/-! ## Constants from `scripts/update.py` -/

/-- `CLAUDE_CODE_GCS_BUCKET` (update.py line 27). -/
def CLAUDE_CODE_GCS_BUCKET : String :=
  "https://storage.googleapis.com/claude-code-dist-86c565f3-f756-42ad-8dfa-d59b1c096819/claude-code-releases"

/-- The literal version placeholder substituted by
`asset_name_from_recipe_pattern` (update.py line 172). -/
def versionPlaceholder : String := "$\x7b\x7b version \x7d\x7d"

/-- `possible_suffixes` (update.py line 203). -/
def possible_suffixes : List String :=
  [".sha256", ".sha256sum", ".sha256.txt", ".sha256sums"]

/-! ## `digest_from_checksum_txt` (update.py lines 58-68) -/

/-- `digest_from_checksum_txt(filename, txt)`: scan lines; on the first
stripped nonempty line ending in `filename`, return its first
whitespace-separated field. -/
def digest_from_checksum_txt (filename txt : String) : Option String :=
  (splitLinesStr txt).findSome? fun line0 =>
    let line := pyStrip line0
    if line.isEmpty then none
    else if pyEndsWith line filename then
      -- a stripped nonempty line always has at least one field
      (splitWs line).head?
    else none

/-! ## Inline digest parsing (update.py lines 192-196):
`re.search(r"sha-?256:?(.*)", str(digest), re.IGNORECASE)` -/

/-- Case-insensitive prefix match. -/
def dropPrefixCI : List Char → List Char → Option (List Char)
  | [], cs => some cs
  | _ :: _, [] => none
  | p :: ps, c :: cs => if p.toLower == c.toLower then dropPrefixCI ps cs else none

/-- Try to match `sha-?256:?` (case-insensitive) at the head; on success
return the rest of the line (the `(.*)` capture, which stops at a newline). -/
def matchDigestAt (cs : List Char) : Option (List Char) :=
  match dropPrefixCI ['s', 'h', 'a'] cs with
  | none => none
  | some r1 =>
    let r2 := match r1 with
      | '-' :: t => t
      | _ => r1
    match dropPrefixCI ['2', '5', '6'] r2 with
    | none => none
    | some r3 =>
      let r4 := match r3 with
        | ':' :: t => t
        | _ => r3
      some (r4.takeWhile (fun c => c ≠ '\n'))

/-- `re.search`: try the pattern at each position, left to right. -/
def searchShaDigest : List Char → Option (List Char)
  | [] => none
  | c :: cs =>
    match matchDigestAt (c :: cs) with
    | some r => some r
    | none => searchShaDigest cs

/-- The value `compute_sha_for_asset` extracts from an inline digest:
`m.group(1).strip()` when the search succeeds. -/
def digestSearch (d : String) : Option String :=
  match searchShaDigest d.data with
  | some r => some (pyStrip (String.mk r))
  | none => none

/-! ## `gcs_platform_for_if_cond` (update.py lines 94-104) -/

def gcs_platform_for_if_cond (if_cond : String) : Option String :=
  if strContains if_cond "linux" && strContains if_cond "x86_64" then some "linux-x64"
  else if strContains if_cond "linux" && strContains if_cond "aarch64" then some "linux-arm64"
  else if strContains if_cond "osx" && strContains if_cond "x86_64" then some "darwin-x64"
  else if strContains if_cond "osx" && strContains if_cond "arm64" then some "darwin-arm64"
  else none

/-! ## `asset_name_for` (update.py lines 107-162) -/

/-- Python `if repo and repo.lower() == s` for the per-project blocks. -/
def repoIs (repo : Option String) (s : String) : Bool :=
  match repo with
  | none => false
  | some r => !r.isEmpty && (pyLower r == s)

/-- `asset_name_for(if_cond, version_tag, repo)`: hardcoded per-project
naming table; each block falls through to the next when no arch matches. -/
def asset_name_for (if_cond version_tag : String) (repo : Option String) : Option String :=
  let v := lstripV version_tag
  let lx := strContains if_cond "linux" && strContains if_cond "x86_64"
  let la := strContains if_cond "linux" && strContains if_cond "aarch64"
  let ox := strContains if_cond "osx" && strContains if_cond "x86_64"
  let oa := strContains if_cond "osx" && strContains if_cond "arm64"
  let hatchet : Option String :=
    if repoIs repo "hatchet" then
      if lx then some ("hatchet_" ++ v ++ "_Linux_x86_64.tar.gz")
      else if la then some ("hatchet_" ++ v ++ "_Linux_arm64.tar.gz")
      else if ox then some ("hatchet_" ++ v ++ "_Darwin_x86_64.tar.gz")
      else if oa then some ("hatchet_" ++ v ++ "_Darwin_arm64.tar.gz")
      else none
    else none
  let copilot : Option String :=
    if repoIs repo "copilot-cli" then
      if lx then some "copilot-linux-x64.tar.gz"
      else if la then some "copilot-linux-arm64.tar.gz"
      else if ox then some "copilot-darwin-x64.tar.gz"
      else if oa then some "copilot-darwin-arm64.tar.gz"
      else none
    else none
  let opencode : Option String :=
    if repoIs repo "opencode" then
      if lx then some "opencode-linux-x64.tar.gz"
      else if la then some "opencode-linux-arm64.tar.gz"
      else if ox then some "opencode-darwin-x64.zip"
      else if oa then some "opencode-darwin-arm64.zip"
      else none
    else none
  let radar : Option String :=
    if repoIs repo "radar" then
      if lx then some ("radar_v" ++ v ++ "_linux_amd64.tar.gz")
      else if la then some ("radar_v" ++ v ++ "_linux_arm64.tar.gz")
      else if ox then some ("radar_v" ++ v ++ "_darwin_amd64.tar.gz")
      else if oa then some ("radar_v" ++ v ++ "_darwin_arm64.tar.gz")
      else none
    else none
  let garage : Option String :=
    if repoIs repo "garage-webui" then
      -- note: the source's second branch tests "arm64" (not "aarch64") here
      if lx then some ("garage-webui-v" ++ v ++ "-linux-amd64")
      else if strContains if_cond "linux" && strContains if_cond "arm64" then
        some ("garage-webui-v" ++ v ++ "-linux-arm64")
      else none
    else none
  hatchet <|> copilot <|> opencode <|> radar <|> garage

/-! ## `asset_name_from_recipe_pattern` (update.py lines 165-180) -/

/-- The segment after the last `/`, when the string contains a `/` and that
segment is nonempty: model of `re.search(r'/([^/]+)$', u)` (update.py
line 373 and the shape of the line-177 pattern). -/
def trailingSegment (u : String) : Option String :=
  let parts := splitOnCh '/' u.data
  if parts.length ≥ 2 then
    match parts.getLast? with
    | some s => if s.isEmpty then none else some (String.mk s)
    | none => none
  else none

/-- Does a (slash-free) segment match `[^/]+\.(?:tar\.gz|zip)`: it must end
in `.tar.gz` or `.zip` with a nonempty stem before the suffix. -/
def tarZipName (s : String) : Bool :=
  (pyEndsWith s ".tar.gz" && decide (7 < s.data.length)) ||
  (pyEndsWith s ".zip" && decide (4 < s.data.length))

/-- `url_pattern` after substituting the version placeholder and stripping
(update.py lines 172-173). -/
def substitutedUrl (recipe_url : String) (version : Option String) : String :=
  pyStrip (pyReplace recipe_url versionPlaceholder (version.getD ""))

/-- `asset_name_from_recipe_pattern(recipe_url, if_cond, version)`.  The
`if_cond` argument is unused by the source function's body as well.
`re.search(r'/([^/]+\.(?:tar\.gz|zip))$', url_pattern)` is modelled as: the
trailing segment, kept only when it matches `tarZipName`. -/
def asset_name_from_recipe_pattern (recipe_url : Option String) (if_cond : String)
    (version : Option String) : Option String :=
  match recipe_url with
  | none => none
  | some u =>
    if u.isEmpty then none
    else
      let up := substitutedUrl u version
      if strContains up "\x7b" then none
      else
        match trailingSegment up with
        | some seg => if tarZipName seg then some seg else none
        | none => none

/-! ## Release / asset data model and the network oracle -/

/-- A release asset record (the fields read by the updater).  The
`_release_assets_cache` attached by `update_single_recipe` (line 303) is
modelled by passing the release's asset list explicitly to
`compute_sha_for_asset`. -/
structure ReleaseAsset where
  name : Option String
  browser_download_url : Option String
  digest : Option String
deriving DecidableEq, Repr

/-- A release record: `tag_name` and `assets`. -/
structure Release where
  tag_name : Option String
  assets : List ReleaseAsset
deriving DecidableEq, Repr

/-- Result of an `httpx.get` call: either a raised exception (timeout,
connection error, ...) or a response with a status code and a body. -/
inductive NetResult
  | exn
  | resp (status : Nat) (body : String)
deriving DecidableEq, Repr

/-- Every network call the updater performs, for the event trace. -/
inductive NetEvent
  | releaseQuery (owner repo : String)
  | manifestFetch (url : String)
  | sidecarFetch (url : String)
  | scanFetch (url : String)
  | assetDownload (url : String)
deriving DecidableEq, Repr

/-- Errors `compute_sha_for_asset` can raise. -/
inductive ShaErr
  | noName
  | noUrl
  | netExn
  | httpStatus
deriving DecidableEq, Repr

/-! ## `find_asset` (update.py lines 183-187) -/

def find_asset (assets : List ReleaseAsset) (name : String) : Option ReleaseAsset :=
  assets.find? (fun a => a.name == some name)

/-! ## `compute_sha_for_asset` (update.py lines 190-232) -/

/-- Stage 1 (lines 192-196): use `asset.digest` when truthy and the
`sha-?256:?(.*)` search matches; the stripped capture is returned. -/
def digestOf (asset : ReleaseAsset) : Option String :=
  match asset.digest with
  | none => none
  | some d => if d.isEmpty then none else digestSearch d

/-- Outcome of one of the two checksum-file loops. -/
inductive StageStep
  | found (hex : String)
  | aborted
  | exhausted
deriving DecidableEq, Repr

/-- Stage 2 (lines 203-213): for each suffix, look up the release asset
named `asset_name ++ suffix`; when it exists with a truthy download url,
fetch it (the status is NOT checked: `.text` is parsed as-is).  A raised
exception propagates (`aborted`); a parse failure falls to the next suffix. -/
def tryChecksumSuffixes (fetchText : String → NetResult) (asset_name : String)
    (release_assets : List ReleaseAsset) :
    List String → StageStep × List NetEvent
  | [] => (.exhausted, [])
  | s :: rest =>
    match release_assets.find? (fun x => x.name == some (asset_name ++ s)) with
    | some candidate =>
      match candidate.browser_download_url with
      | some u =>
        if u.isEmpty then tryChecksumSuffixes fetchText asset_name release_assets rest
        else
          match fetchText u with
          | .exn => (.aborted, [.sidecarFetch u])
          | .resp _ body =>
            match digest_from_checksum_txt asset_name body with
            | some got =>
              if got.isEmpty then
                -- `if got:` is a truthiness check in the source
                let (st, ev) := tryChecksumSuffixes fetchText asset_name release_assets rest
                (st, .sidecarFetch u :: ev)
              else (.found got, [.sidecarFetch u])
            | none =>
              let (st, ev) := tryChecksumSuffixes fetchText asset_name release_assets rest
              (st, .sidecarFetch u :: ev)
      | none => tryChecksumSuffixes fetchText asset_name release_assets rest
    | none => tryChecksumSuffixes fetchText asset_name release_assets rest

/-- Stage 3 (lines 216-224): scan all release assets for one whose (truthy)
name contains `"sha"` or `"checksum"` (lowercased); fetch and parse it the
same way as stage 2. -/
def scanChecksumAssets (fetchText : String → NetResult) (asset_name : String) :
    List ReleaseAsset → StageStep × List NetEvent
  | [] => (.exhausted, [])
  | cand :: rest =>
    let skip := scanChecksumAssets fetchText asset_name rest
    match cand.name with
    | some n =>
      if !n.isEmpty &&
          (strContains (pyLower n) "sha" || strContains (pyLower n) "checksum") then
        match cand.browser_download_url with
        | some u =>
          if u.isEmpty then skip
          else
            match fetchText u with
            | .exn => (.aborted, [.scanFetch u])
            | .resp _ body =>
              match digest_from_checksum_txt asset_name body with
              | some got =>
                if got.isEmpty then
                  let (st, ev) := skip
                  (st, .scanFetch u :: ev)
                else (.found got, [.scanFetch u])
              | none =>
                let (st, ev) := skip
                (st, .scanFetch u :: ev)
        | none => skip
      else skip
    | none => skip

/-- Stage 4 (lines 227-232): download the asset itself, raise for a
non-success status, and hash the content (`sha256Hex` models
`hashlib.sha256(..).hexdigest()`). -/
def downloadAndHash (fetchText : String → NetResult) (sha256Hex : String → String)
    (asset : ReleaseAsset) : Except ShaErr String × List NetEvent :=
  match asset.browser_download_url with
  | none => (.error .noUrl, [])
  | some u =>
    if u.isEmpty then (.error .noUrl, [])
    else
      match fetchText u with
      | .exn => (.error .netExn, [.assetDownload u])
      | .resp status body =>
        if 200 ≤ status ∧ status < 300 then (.ok (sha256Hex body), [.assetDownload u])
        else (.error .httpStatus, [.assetDownload u])

/-- `compute_sha_for_asset(asset, headers)`: the four-stage fallback chain.
`headers` carries no behaviour in the model.  Returns the result (a hex
string, or the exception the source would raise) paired with the trace of
network calls performed. -/
def compute_sha_for_asset (fetchText : String → NetResult) (sha256Hex : String → String)
    (asset : ReleaseAsset) (release_assets : List ReleaseAsset) :
    Except ShaErr String × List NetEvent :=
  match digestOf asset with
  | some hex => (.ok hex, [])
  | none =>
    match asset.name with
    | none => (.error .noName, [])
    | some an =>
      if an.isEmpty then (.error .noName, [])
      else
        let (st2, ev2) := tryChecksumSuffixes fetchText an release_assets possible_suffixes
        match st2 with
        | .found h => (.ok h, ev2)
        | .aborted => (.error .netExn, ev2)
        | .exhausted =>
          let (st3, ev3) := scanChecksumAssets fetchText an release_assets
          match st3 with
          | .found h => (.ok h, ev2 ++ ev3)
          | .aborted => (.error .netExn, ev2 ++ ev3)
          | .exhausted =>
            let (r, ev4) := downloadAndHash fetchText sha256Hex asset
            (r, ev2 ++ ev3 ++ ev4)

/-! ## `parse_owner_repo_from_url` (update.py lines 235-258) -/

/-- Model of `re.match(r"git@github.com:(?P<owner>[^/]+)/(?P<repo>[^/.]+)(?:\.git)?", url)`.
The unescaped `.` of `github.com` is a regex wildcard, so any character is
accepted at that position; the trailing `(?:\.git)?` never affects the
groups because the repo group already excludes `.`; `re.match` anchors only
at the start, so trailing text is allowed. -/
def matchGitSsh (url : String) : Option (String × String) :=
  match dropPrefixLit "git@github".data url.data with
  | none => none
  | some r1 =>
    match r1 with
    | [] => none
    | _ :: r2 =>
      match dropPrefixLit "com:".data r2 with
      | none => none
      | some r3 =>
        let owner := r3.takeWhile (fun c => c ≠ '/')
        if owner.isEmpty then none
        else
          match r3.drop owner.length with
          | '/' :: r4 =>
            let repo := r4.takeWhile (fun c => c ≠ '/' && c ≠ '.')
            if repo.isEmpty then none
            else some (String.mk owner, String.mk repo)
          | _ => none

/-- Model of `re.match(r"https?://github.com/(?P<owner>[^/]+)/(?P<repo>[^/]+)(?:\.git)?", url)`.
As above, `.` is a wildcard and the end is not anchored.  The repo group
`[^/]+` is greedy, so a trailing `.git` is KEPT in the repo group. -/
def matchHttpsGithub (url : String) : Option (String × String) :=
  match dropPrefixLit "http".data url.data with
  | none => none
  | some r0 =>
    let r1 := match r0 with
      | 's' :: t => t
      | _ => r0
    match dropPrefixLit "://github".data r1 with
    | none => none
    | some r2 =>
      match r2 with
      | [] => none
      | _ :: r3 =>
        match dropPrefixLit "com/".data r3 with
        | none => none
        | some r4 =>
          let owner := r4.takeWhile (fun c => c ≠ '/')
          if owner.isEmpty then none
          else
            match r4.drop owner.length with
            | '/' :: r5 =>
              let repo := r5.takeWhile (fun c => c ≠ '/')
              if repo.isEmpty then none
              else some (String.mk owner, String.mk repo)
            | _ => none

/-- A valid URL scheme for `urllib.parse`: first character a letter, the
rest letters, digits, `+`, `-` or `.`. -/
def validScheme (s : List Char) : Bool :=
  match s with
  | [] => false
  | c :: cs => c.isAlpha && cs.all (fun d => d.isAlphanum || d = '+' || d = '-' || d = '.')

/-- Split the `;params` part off the last path segment, as
`urllib.parse.urlparse` does for the schemes this updater encounters. -/
def splitParamsPath (u : List Char) : List Char :=
  let segs := splitOnCh '/' u
  match segs.getLast? with
  | none => u
  | some lastSeg =>
    let lastCut := ((splitOnCh ';' lastSeg).head?).getD lastSeg
    (String.intercalate "/" ((segs.dropLast ++ [lastCut]).map String.mk)).data

/-- Model of `urllib.parse.urlparse(url).path`: drop the fragment, a valid
scheme before the first `:`, the `//netloc` part, the query, and the
params of the last segment. -/
def urlparsePath (url : String) : String :=
  let u := ((splitOnCh '#' url.data).head?).getD url.data
  let u :=
    match splitOnCh ':' u with
    | first :: rest =>
      if !first.isEmpty && validScheme first && !rest.isEmpty then
        (String.intercalate ":" (rest.map String.mk)).data
      else u
    | [] => u
  let u :=
    if isPrefixCh "//".data u then
      let r := u.drop 2
      r.drop ((r.takeWhile (fun c => c ≠ '/' && c ≠ '?')).length)
    else u
  let u := ((splitOnCh '?' u).head?).getD u
  String.mk (splitParamsPath u)

/-- `parse_owner_repo_from_url(url)`: the two anchored regexes, then the
urlparse fallback taking the first two nonempty path segments and stripping
a `.git` suffix from the second. -/
def parse_owner_repo_from_url (url : String) : Option (String × String) :=
  if url.isEmpty then none
  else
    let url := pyStrip url
    match matchGitSsh url with
    | some p => some p
    | none =>
      match matchHttpsGithub url with
      | some p => some p
      | none =>
        let parts := (splitOnCh '/' (urlparsePath url).data).filter (fun seg => !seg.isEmpty)
        match parts with
        | p0 :: p1 :: _ =>
          let p1s := String.mk p1
          let repo_name := if pyEndsWith p1s ".git" then String.mk (p1.take (p1.length - 4)) else p1s
          some (String.mk p0, repo_name)
        | _ => none

/-! ## GCS manifest (update.py lines 71-91) -/

/-- A `platforms` entry of the GCS manifest: either not a JSON object
(skipped) or an object with a `checksum` field (absent modelled as `""`,
which the source treats identically via `.get("checksum", "")`). -/
inductive PlatEntry
  | notDict
  | entry (checksum : String)
deriving DecidableEq, Repr

/-- Result of fetching and JSON-parsing the manifest (`httpx.get` +
`raise_for_status` + `.json()`); `exn` covers the raised exceptions. -/
inductive ManifestResult
  | exn
  | ok (platforms : List (String × PlatEntry))
deriving DecidableEq, Repr

/-- The manifest URL built by `get_gcs_checksums`. -/
def manifestUrlFor (version : String) : String :=
  CLAUDE_CODE_GCS_BUCKET ++ "/" ++ version ++ "/manifest.json"

/-- The dict `get_gcs_checksums` returns: platforms whose entry is a dict
with a truthy checksum, in manifest order. -/
def gcsChecksumTable (platforms : List (String × PlatEntry)) : List (String × String) :=
  platforms.filterMap fun pe =>
    match pe.2 with
    | .entry c => if c.isEmpty then none else some (pe.1, c)
    | .notDict => none

/-- Python `dict.get` on the checksum table. -/
def lookupStr (t : List (String × String)) (k : String) : Option String :=
  match t.find? (fun kv => kv.1 == k) with
  | some kv => some kv.2
  | none => none

/-! ## Recipe document model -/

/-- One `{url, sha256, ...}` item of a source list (`notDict` models a
non-dict list element, skipped by the loop). -/
inductive Item
  | dict (url : Option String) (sha256 : Option String)
  | notDict
deriving DecidableEq, Repr

/-- One element of `doc["source"]`: a dict with a `then` key (with its
`if` condition, defaulting to `""`), a dict with a `url` key, or anything
else (skipped). -/
inductive SourceEntry
  | withThen (if_cond : String) (items : List Item)
  | withUrl (url : Option String) (sha256 : Option String)
  | otherEntry
deriving DecidableEq, Repr

/-- The recipe document fields the updater reads or writes. -/
structure Doc where
  context_version : Option String
  context_gcs_base : Option String
  about_repository : Option String
  /-- `none` models `doc["source"]` absent or not a list. -/
  source : Option (List SourceEntry)
deriving DecidableEq, Repr

/-! ## Asset-name derivation inside the loop (update.py lines 364-375) -/

/-- The three-step derivation of `expected`: the hardcoded table, then the
recipe-URL pattern, then (only for an empty `if_cond`) the raw URL's
trailing segment.  Every non-`None` value produced is a nonempty string,
so Python's `if not expected` is `Option.isNone`. -/
def deriveAssetName (if_cond tag : String) (repo : Option String)
    (version : Option String) (recipe_url : String) : Option String :=
  let e1 := asset_name_for if_cond tag repo
  let e2 :=
    match e1 with
    | some n => some n
    | none => asset_name_from_recipe_pattern (some recipe_url) if_cond version
  match e2 with
  | some n => some n
  | none => if if_cond.isEmpty then trailingSegment recipe_url else none

/-! ## The per-item body of the source loop (update.py lines 329-391) -/

/-- Result of processing one item: the (possibly updated) item, the GCS
checksum cache after the step, the diagnostics printed, and the network
calls performed. -/
structure ItemOut where
  item : Item
  cache : Option (List (String × String))
  msgs : List String
  events : List NetEvent
deriving DecidableEq, Repr

/-- `is_gcs_source` (lines 342-346). -/
def isGcsSource (recipe_url : String) (gcs_base : Option String) : Bool :=
  strContains recipe_url CLAUDE_CODE_GCS_BUCKET ||
    (truthy gcs_base && (gcs_base.getD "" == CLAUDE_CODE_GCS_BUCKET))

/-- The body of `for item in items_to_process` (lines 329-391): skip
non-dict items and falsy urls; handle GCS sources through the cached
manifest table; otherwise derive an asset name, find the asset and resolve
its checksum, writing `item["sha256"]` only on success. -/
def processItem (fetchText : String → NetResult) (sha256Hex : String → String)
    (getManifest : String → ManifestResult) (gcs_base : Option String)
    (assets : List ReleaseAsset) (tag version repo : String) (if_cond : String)
    (cache : Option (List (String × String))) (item : Item) : ItemOut :=
  match item with
  | .notDict => ⟨item, cache, [], []⟩
  | .dict url sha =>
    match url with
    | none => ⟨item, cache, [], []⟩
    | some u =>
      if u.isEmpty then ⟨item, cache, [], []⟩
      else if isGcsSource u gcs_base then
        let fr : Option (List (String × String)) × List String × List NetEvent :=
          match cache with
          | some t => (some t, [], [])
          | none =>
            match getManifest (manifestUrlFor version) with
            | .ok ps =>
              (some (gcsChecksumTable ps),
               ["Fetched GCS checksums for version " ++ version],
               [.manifestFetch (manifestUrlFor version)])
            | .exn =>
              (some [],
               ["Failed to fetch GCS checksums"],
               [.manifestFetch (manifestUrlFor version)])
        let cache' := fr.1
        let found : Option String :=
          match gcs_platform_for_if_cond if_cond with
          | none => none
          | some p =>
            if p.isEmpty then none
            else
              match lookupStr (cache'.getD []) p with
              | some s => if s.isEmpty then none else some s
              | none => none
        let im : Item × String :=
          match found with
          | some s => (.dict url (some s), "Using GCS sha: " ++ s)
          | none => (item, "GCS checksum not found for platform")
        ⟨im.1, cache', fr.2.1 ++ [im.2], fr.2.2⟩
      else
        match deriveAssetName if_cond tag (some repo) (some version) u with
        | none => ⟨item, cache, ["Could not determine asset name for url: " ++ u], []⟩
        | some expected =>
          match find_asset assets expected with
          | none => ⟨item, cache, ["No matching asset found for " ++ expected], []⟩
          | some a =>
            let (r, ev) := compute_sha_for_asset fetchText sha256Hex a assets
            let im : Item × String :=
              match r with
              | .error _ => (item, "Failed to compute sha for " ++ expected)
              | .ok s => (.dict url (some s), "Using sha for " ++ expected ++ ": " ++ s)
            ⟨im.1, cache, [im.2], ev⟩

/-- Result of processing a list of items / entries. -/
structure ItemsOut where
  items : List Item
  cache : Option (List (String × String))
  msgs : List String
  events : List NetEvent
deriving DecidableEq, Repr

/-- Fold `processItem` over `items_to_process`, threading the cache. -/
def processItems (fetchText : String → NetResult) (sha256Hex : String → String)
    (getManifest : String → ManifestResult) (gcs_base : Option String)
    (assets : List ReleaseAsset) (tag version repo : String) (if_cond : String)
    (cache : Option (List (String × String))) :
    List Item → ItemsOut
  | [] => ⟨[], cache, [], []⟩
  | i :: rest =>
    let r1 := processItem fetchText sha256Hex getManifest gcs_base assets
      tag version repo if_cond cache i
    let r2 := processItems fetchText sha256Hex getManifest gcs_base assets
      tag version repo if_cond r1.cache rest
    ⟨r1.item :: r2.items, r2.cache, r1.msgs ++ r2.msgs, r1.events ++ r2.events⟩

/-- Result of processing the whole source list. -/
structure EntriesOut where
  entries : List SourceEntry
  cache : Option (List (String × String))
  msgs : List String
  events : List NetEvent
deriving DecidableEq, Repr

/-- `for src in doc["source"]` (lines 309-391): a dict with `then` yields
its items under its `if` condition, a dict with `url` yields itself under
an empty condition, anything else is skipped. -/
def processEntries (fetchText : String → NetResult) (sha256Hex : String → String)
    (getManifest : String → ManifestResult) (gcs_base : Option String)
    (assets : List ReleaseAsset) (tag version repo : String)
    (cache : Option (List (String × String))) :
    List SourceEntry → EntriesOut
  | [] => ⟨[], cache, [], []⟩
  | e :: rest =>
    let r1 :
        SourceEntry × Option (List (String × String)) × List String × List NetEvent :=
      match e with
      | .withThen if_cond items =>
        let r := processItems fetchText sha256Hex getManifest gcs_base assets
          tag version repo if_cond cache items
        (.withThen if_cond r.items, r.cache, r.msgs, r.events)
      | .withUrl url sha =>
        let r := processItem fetchText sha256Hex getManifest gcs_base assets
          tag version repo "" cache (.dict url sha)
        match r.item with
        | .dict u2 s2 => (.withUrl u2 s2, r.cache, r.msgs, r.events)
        | .notDict => (.otherEntry, r.cache, r.msgs, r.events)
      | .otherEntry => (.otherEntry, cache, [], [])
    let r2 := processEntries fetchText sha256Hex getManifest gcs_base assets
      tag version repo r1.2.1 rest
    ⟨r1.1 :: r2.entries, r2.cache, r1.2.2.1 ++ r2.msgs, r1.2.2.2 ++ r2.events⟩

/-! ## `update_single_recipe` (update.py lines 261-404) and `main` -/

/-- Result of fetching the latest release (`get_latest_release`):
`exn` models a raised httpx / status error. -/
inductive ReleaseResult
  | exn
  | ok (r : Release)
deriving DecidableEq, Repr

/-- Observable outcome of `update_single_recipe`: documents written to the
recipe path, whether an exception propagated, the messages printed and the
network calls performed. -/
structure UpdateOut where
  writes : List Doc
  raised : Bool
  msgs : List String
  events : List NetEvent
deriving DecidableEq, Repr

/-- `parsed` (lines 269-273): parse the recipe's `about.repository` when
present and truthy. -/
def parsedRepoOf (doc : Doc) : Option (String × String) :=
  match doc.about_repository with
  | none => none
  | some u => if u.isEmpty then none else parse_owner_repo_from_url u

/-- `update_single_recipe(recipe_path, owner, repo, headers, token, apply, dry)`.
The file read is modelled by passing the parsed document `doc`; the final
write is modelled by `writes` carrying the document that would be
serialized (with the fixed schema header) to the recipe path. -/
def updateSingleRecipe (getRelease : String → String → ReleaseResult)
    (getManifest : String → ManifestResult) (fetchText : String → NetResult)
    (sha256Hex : String → String) (doc : Doc)
    (owner repo : Option String) (dry : Bool) : UpdateOut :=
  let parsed := parsedRepoOf doc
  let owner := match parsed with | some p => some p.1 | none => owner
  let repo := match parsed with | some p => some p.2 | none => repo
  if !truthy owner || !truthy repo then
    ⟨[], false, ["Owner/repo not set and not found in recipe. Skipping this recipe."], []⟩
  else
    let o := owner.getD ""
    let r := repo.getD ""
    match getRelease o r with
    | .exn => ⟨[], true, [], [.releaseQuery o r]⟩
    | .ok release =>
      match release.tag_name with
      | none => ⟨[], false, ["No tag_name found in release; skipping"], [.releaseQuery o r]⟩
      | some tag =>
        if tag.isEmpty then
          ⟨[], false, ["No tag_name found in release; skipping"], [.releaseQuery o r]⟩
        else
          let version := lstripV tag
          if doc.context_version == some version then
            ⟨[], false, ["Recipe already at version " ++ version], [.releaseQuery o r]⟩
          else
            let doc := { doc with context_version := some version }
            let (doc, msgs, events) :=
              match doc.source with
              | none => (doc, ([] : List String), ([] : List NetEvent))
              | some entries =>
                let pr := processEntries fetchText sha256Hex getManifest
                  doc.context_gcs_base release.assets tag version r none entries
                ({ doc with source := some pr.entries }, pr.msgs, pr.events)
            if dry then
              ⟨[], false, msgs ++ ["(dry-run) not writing changes for this recipe"],
               .releaseQuery o r :: events⟩
            else
              ⟨[doc], false, msgs ++ ["Wrote updated recipe with version " ++ version],
               .releaseQuery o r :: events⟩

/-- `main` (lines 409-410): `dry = args.dry_run or not apply`. -/
def mainDry (apply dry_run : Bool) : Bool :=
  dry_run || !apply

/-! ## `scripts/build.py`: skip-existing guard -/

/-- The glob pattern of `package_exists_locally` (build.py line 67) and of
the upload artifact lookup (line 142). -/
def localPackagePattern (target_platform name version : String) : String :=
  "output/" ++ target_platform ++ "/" ++ name ++ "-" ++ version ++ "-*_*.conda"

/-- `package_exists_locally(target_platform, name, version)`:
`glob` models `Path(".").glob(pattern)`. -/
def package_exists_locally (glob : String → List String)
    (target_platform name version : String) : Bool :=
  !(glob (localPackagePattern target_platform name version)).isEmpty

/-- The builder's recipe document: the fields `build_recipe` reads. -/
structure BuildDoc where
  context_version : Option String
  package_name : Option String
deriving DecidableEq, Repr

/-- Observable outcome of `build_recipe`: generated recipe paths written,
subprocess commands run (builds and uploads), whether an exception
propagated. -/
structure BuildOut where
  written : List String
  cmds : List (List String)
  raised : Bool
  msgs : List String
deriving DecidableEq, Repr

/-- `version = str(recipe_content.get("context", {}).get("version"))`:
`str(None)` is the string `"None"`. -/
def buildVersionOf (content : BuildDoc) : String :=
  match content.context_version with
  | some v => v
  | none => "None"

/-- `package_name = str(recipe_content.get("package", {}).get("name") or recipe_name)`. -/
def buildNameOf (content : BuildDoc) (recipe_name : String) : String :=
  match content.package_name with
  | some n => if n.isEmpty then recipe_name else n
  | none => recipe_name

/-- `build_recipe(recipe_yaml_path, target_platform, channel, upload_flag,
build_flag, skip_existing)` (build.py lines 75-170).  `glob` models the
filesystem glob, `runExit` the exit code of a subprocess invocation, and
`env` the process environment. -/
def build_recipe (glob : String → List String) (runExit : List String → Int)
    (env : String → Option String) (recipe_name : String) (content : BuildDoc)
    (target_platform channel : String)
    (upload_flag build_flag skip_existing : Bool) : BuildOut :=
  let version := buildVersionOf content
  let package_name := buildNameOf content recipe_name
  let outPath := "recipes/" ++ recipe_name ++ "/generated/" ++ target_platform ++ "/recipe.yaml"
  if build_flag then
    if skip_existing && package_exists_locally glob target_platform package_name version then
      ⟨[outPath], [], false, [package_name ++ " " ++ version ++ " already exists locally; skipping build"]⟩
    else
      let channel_url := "https://repo.prefix.dev/" ++ channel
      let cmd := ["rattler-build", "build", "-r", outPath,
        "--target-platform", target_platform, "--test", "native",
        "-c", channel_url, "-c", "conda-forge",
        "--skip-existing", if skip_existing then "all" else "none"]
      if runExit cmd ≠ 0 then
        ⟨[outPath], [cmd], true, ["recipe failed to cook"]⟩
      else if upload_flag then
        match (env "PREFIX_API_KEY").filter (fun s => !s.isEmpty) <|>
              (env "PREFIX_TOKEN").filter (fun s => !s.isEmpty) with
        | none =>
          ⟨[outPath], [cmd], false, ["PREFIX_API_KEY/PREFIX_TOKEN not found in environment; skipping upload"]⟩
        | some _ =>
          match glob (localPackagePattern target_platform package_name version) with
          | [] => ⟨[outPath], [cmd], false, ["No new artifacts to upload"]⟩
          | artifact :: _ =>
            let upload_cmd := ["rattler-build", "upload", "prefix", "-c", channel,
              "--skip-existing", artifact]
            if runExit upload_cmd ≠ 0 then
              ⟨[outPath], [cmd, upload_cmd], true, ["recipe failed to cook"]⟩
            else
              ⟨[outPath], [cmd, upload_cmd], false, ["Uploaded " ++ artifact]⟩
      else
        ⟨[outPath], [cmd], false, []⟩
  else
    ⟨[outPath], [], false, []⟩

/-! ## Event-classification helpers -/

def isSidecarEv : NetEvent → Bool
  | .sidecarFetch _ => true
  | _ => false

def isScanEv : NetEvent → Bool
  | .scanFetch _ => true
  | _ => false

def isDownloadEv : NetEvent → Bool
  | .assetDownload _ => true
  | _ => false

def isManifestEv : NetEvent → Bool
  | .manifestFetch _ => true
  | _ => false

def isReleaseQueryEv : NetEvent → Bool
  | .releaseQuery _ _ => true
  | _ => false

/-- A checksum-file fetch or an asset download (the network calls the
generic checksum chain performs). -/
def isChecksumChainEv (e : NetEvent) : Bool :=
  isSidecarEv e || isScanEv e || isDownloadEv e

/-- The release-API queries recorded in a trace. -/
def releaseQueriesOf (evs : List NetEvent) : List (String × String) :=
  evs.filterMap fun e =>
    match e with
    | .releaseQuery o r => some (o, r)
    | _ => none

/-- The number of GCS-manifest fetches in a trace. -/
def manifestCount (evs : List NetEvent) : Nat :=
  (evs.filter isManifestEv).length

/-! ## Shape lemmas about the traces each stage can produce -/

theorem all_weaken {l : List NetEvent} {p q : NetEvent → Bool}
    (hpq : ∀ e, p e = true → q e = true) (h : l.all p = true) : l.all q = true := by
  rw [List.all_eq_true] at h ⊢
  exact fun e he => hpq e (h e he)

theorem tryChecksumSuffixes_events_shape (f : String → NetResult) (an : String)
    (rel : List ReleaseAsset) :
    ∀ ss : List String, (tryChecksumSuffixes f an rel ss).2.all isSidecarEv = true := by
  intro ss
  induction ss with
  | nil => simp [tryChecksumSuffixes]
  | cons s rest ih =>
    rw [tryChecksumSuffixes]
    repeat' split
    all_goals simp_all [isSidecarEv]

theorem scanChecksumAssets_events_shape (f : String → NetResult) (an : String) :
    ∀ l : List ReleaseAsset, (scanChecksumAssets f an l).2.all isScanEv = true := by
  intro l
  induction l with
  | nil => simp [scanChecksumAssets]
  | cons c rest ih =>
    rw [scanChecksumAssets]
    repeat' split
    all_goals simp_all [isScanEv]

theorem downloadAndHash_events_shape (f : String → NetResult) (sh : String → String)
    (a : ReleaseAsset) : (downloadAndHash f sh a).2.all isDownloadEv = true := by
  rw [downloadAndHash]
  repeat' split
  all_goals simp_all [isDownloadEv]

theorem sidecar_is_chain : ∀ e, isSidecarEv e = true → isChecksumChainEv e = true := by
  intro e h
  simp [isChecksumChainEv, h]

theorem scan_is_chain : ∀ e, isScanEv e = true → isChecksumChainEv e = true := by
  intro e h
  simp [isChecksumChainEv, h]

theorem download_is_chain : ∀ e, isDownloadEv e = true → isChecksumChainEv e = true := by
  intro e h
  simp [isChecksumChainEv, h]

theorem compute_sha_events_shape (f : String → NetResult) (sh : String → String)
    (a : ReleaseAsset) (rel : List ReleaseAsset) :
    (compute_sha_for_asset f sh a rel).2.all isChecksumChainEv = true := by
  rw [compute_sha_for_asset]
  cases hd : digestOf a with
  | some hex => simp
  | none =>
  cases hn : a.name with
  | none => simp
  | some an =>
    cases he : an.isEmpty with
    | true => simp [he]
    | false =>
      simp only [he, Bool.false_eq_true, if_false]
      rcases h2 : tryChecksumSuffixes f an rel possible_suffixes with ⟨st2, ev2⟩
      have hev2 : ev2.all isChecksumChainEv = true := by
        have := tryChecksumSuffixes_events_shape f an rel possible_suffixes
        rw [h2] at this
        exact all_weaken sidecar_is_chain this
      cases st2 with
      | found h => simpa using hev2
      | aborted => simpa using hev2
      | exhausted =>
        rcases h3 : scanChecksumAssets f an rel with ⟨st3, ev3⟩
        have hev3 : ev3.all isChecksumChainEv = true := by
          have := scanChecksumAssets_events_shape f an rel
          rw [h3] at this
          exact all_weaken scan_is_chain this
        cases st3 with
        | found h => simp [List.all_append, hev2, hev3]
        | aborted => simp [List.all_append, hev2, hev3]
        | exhausted =>
          rcases h4 : downloadAndHash f sh a with ⟨r4, ev4⟩
          have hev4 : ev4.all isChecksumChainEv = true := by
            have := downloadAndHash_events_shape f sh a
            rw [h4] at this
            exact all_weaken download_is_chain this
          simp [List.all_append, hev2, hev3, hev4]

/-- Events the source-processing loop can emit: checksum-chain calls or a
manifest fetch (never a release query). -/
def isLoopEv (e : NetEvent) : Bool :=
  isChecksumChainEv e || isManifestEv e

theorem chain_is_loop : ∀ e, isChecksumChainEv e = true → isLoopEv e = true := by
  intro e h
  simp [isLoopEv, h]

theorem processItem_events_shape (f : String → NetResult) (sh : String → String)
    (gm : String → ManifestResult) (gb : Option String) (assets : List ReleaseAsset)
    (tag version repo if_cond : String) (cache : Option (List (String × String)))
    (i : Item) :
    (processItem f sh gm gb assets tag version repo if_cond cache i).events.all isLoopEv
      = true := by
  cases i with
  | notDict => simp [processItem]
  | dict url sha =>
    cases url with
    | none => simp [processItem]
    | some u =>
      rw [processItem.eq_def]
      dsimp only
      cases he : u.isEmpty with
      | true => simp [he]
      | false =>
        simp only [he, Bool.false_eq_true, if_false]
        cases hg : isGcsSource u gb with
        | true =>
          simp only [hg, if_true]
          cases cache with
          | some t => simp [isLoopEv, isManifestEv]
          | none =>
            cases gm (manifestUrlFor version) <;>
              simp [isLoopEv, isManifestEv, isChecksumChainEv]
        | false =>
          simp only [hg, Bool.false_eq_true, if_false]
          cases hd : deriveAssetName if_cond tag (some repo) (some version) u with
          | none => simp [isLoopEv]
          | some expected =>
            cases hf : find_asset assets expected with
            | none => simp only [hf]; simp [isLoopEv]
            | some a =>
              simp only [hf]
              have hs := all_weaken chain_is_loop (compute_sha_events_shape f sh a assets)
              rcases hc : compute_sha_for_asset f sh a assets with ⟨r, ev⟩
              rw [hc] at hs
              cases r <;> simpa using hs

theorem processItems_events_shape (f : String → NetResult) (sh : String → String)
    (gm : String → ManifestResult) (gb : Option String) (assets : List ReleaseAsset)
    (tag version repo if_cond : String) :
    ∀ (items : List Item) (cache : Option (List (String × String))),
    (processItems f sh gm gb assets tag version repo if_cond cache items).events.all isLoopEv
      = true := by
  intro items
  induction items with
  | nil => intro cache; simp [processItems]
  | cons i rest ih =>
    intro cache
    rw [processItems]
    simp only [List.all_append, Bool.and_eq_true]
    exact ⟨processItem_events_shape f sh gm gb assets tag version repo if_cond cache i,
      ih _⟩

theorem processEntries_events_shape (f : String → NetResult) (sh : String → String)
    (gm : String → ManifestResult) (gb : Option String) (assets : List ReleaseAsset)
    (tag version repo : String) :
    ∀ (entries : List SourceEntry) (cache : Option (List (String × String))),
    (processEntries f sh gm gb assets tag version repo cache entries).events.all isLoopEv
      = true := by
  intro entries
  induction entries with
  | nil => intro cache; simp [processEntries]
  | cons e rest ih =>
    intro cache
    rw [processEntries.eq_def]
    cases e with
    | withThen if_cond items =>
      simp only [List.all_append, Bool.and_eq_true]
      exact ⟨processItems_events_shape f sh gm gb assets tag version repo if_cond items cache,
        ih _⟩
    | withUrl url sha =>
      have h1 := processItem_events_shape f sh gm gb assets tag version repo "" cache
        (.dict url sha)
      rcases hi : (processItem f sh gm gb assets tag version repo "" cache
          (.dict url sha)).item with ⟨u2, s2⟩ | _
      all_goals
        simp only [hi, List.all_append, Bool.and_eq_true]
      all_goals
        exact ⟨h1, ih _⟩
    | otherEntry =>
      simp only [List.all_append, List.all_nil, Bool.true_and]
      exact ih _

theorem releaseQueriesOf_eq_nil {l : List NetEvent} (h : l.all isLoopEv = true) :
    releaseQueriesOf l = [] := by
  unfold releaseQueriesOf
  rw [List.filterMap_eq_nil_iff]
  rw [List.all_eq_true] at h
  intro e he
  have hl := h e he
  cases e <;> simp_all [isLoopEv, isChecksumChainEv, isSidecarEv, isScanEv,
    isDownloadEv, isManifestEv]

theorem releaseQueriesOf_cons_query (o r : String) {l : List NetEvent}
    (h : l.all isLoopEv = true) :
    releaseQueriesOf (.releaseQuery o r :: l) = [(o, r)] := by
  have h2 := releaseQueriesOf_eq_nil h
  unfold releaseQueriesOf at h2 ⊢
  rw [List.filterMap_cons]
  simp [h2]

theorem manifestCount_append (l1 l2 : List NetEvent) :
    manifestCount (l1 ++ l2) = manifestCount l1 + manifestCount l2 := by
  simp [manifestCount, List.filter_append]

theorem manifestCount_eq_zero_of_chain {l : List NetEvent}
    (h : l.all isChecksumChainEv = true) : manifestCount l = 0 := by
  induction l with
  | nil => rfl
  | cons e t ih =>
    rw [List.all_cons, Bool.and_eq_true] at h
    obtain ⟨he, ht⟩ := h
    have : isManifestEv e = false := by
      cases e <;> simp_all [isChecksumChainEv, isSidecarEv, isScanEv, isDownloadEv,
        isManifestEv]
    simpa [manifestCount, List.filter_cons, this] using ih ht

/-- One unit of "may still fetch the manifest" credit. -/
def cacheCredit : Option (List (String × String)) → Nat
  | none => 1
  | some _ => 0

theorem processItem_manifest_credit (f : String → NetResult) (sh : String → String)
    (gm : String → ManifestResult) (gb : Option String) (assets : List ReleaseAsset)
    (tag version repo if_cond : String) (cache : Option (List (String × String)))
    (i : Item) :
    manifestCount (processItem f sh gm gb assets tag version repo if_cond cache i).events
        + cacheCredit (processItem f sh gm gb assets tag version repo if_cond cache i).cache
      ≤ cacheCredit cache := by
  cases i with
  | notDict => simp [processItem, manifestCount]
  | dict url sha =>
    cases url with
    | none => simp [processItem, manifestCount]
    | some u =>
      rw [processItem.eq_def]
      dsimp only
      cases he : u.isEmpty with
      | true => simp [he, manifestCount]
      | false =>
        simp only [he, Bool.false_eq_true, if_false]
        cases hg : isGcsSource u gb with
        | true =>
          simp only [hg, if_true]
          cases cache with
          | some t => simp [manifestCount, cacheCredit, isManifestEv]
          | none =>
            cases gm (manifestUrlFor version) <;>
              simp [manifestCount, cacheCredit, isManifestEv, List.filter_cons]
        | false =>
          simp only [hg, Bool.false_eq_true, if_false]
          cases hd : deriveAssetName if_cond tag (some repo) (some version) u with
          | none => simp [manifestCount]
          | some expected =>
            cases hf : find_asset assets expected with
            | none => simp only [hf]; simp [manifestCount]
            | some a =>
              simp only [hf]
              have hz := manifestCount_eq_zero_of_chain (compute_sha_events_shape f sh a assets)
              rcases hc : compute_sha_for_asset f sh a assets with ⟨r, ev⟩
              rw [hc] at hz
              cases r <;> simp_all [cacheCredit]

theorem processItems_manifest_credit (f : String → NetResult) (sh : String → String)
    (gm : String → ManifestResult) (gb : Option String) (assets : List ReleaseAsset)
    (tag version repo if_cond : String) :
    ∀ (items : List Item) (cache : Option (List (String × String))),
    manifestCount (processItems f sh gm gb assets tag version repo if_cond cache items).events
        + cacheCredit (processItems f sh gm gb assets tag version repo if_cond cache items).cache
      ≤ cacheCredit cache := by
  intro items
  induction items with
  | nil => intro cache; simp [processItems, manifestCount]
  | cons i rest ih =>
    intro cache
    rw [processItems]
    simp only [manifestCount_append]
    have h1 := processItem_manifest_credit f sh gm gb assets tag version repo if_cond cache i
    have h2 := ih (processItem f sh gm gb assets tag version repo if_cond cache i).cache
    omega

theorem processEntries_manifest_credit (f : String → NetResult) (sh : String → String)
    (gm : String → ManifestResult) (gb : Option String) (assets : List ReleaseAsset)
    (tag version repo : String) :
    ∀ (entries : List SourceEntry) (cache : Option (List (String × String))),
    manifestCount (processEntries f sh gm gb assets tag version repo cache entries).events
        + cacheCredit (processEntries f sh gm gb assets tag version repo cache entries).cache
      ≤ cacheCredit cache := by
  intro entries
  induction entries with
  | nil => intro cache; simp [processEntries, manifestCount]
  | cons e rest ih =>
    intro cache
    rw [processEntries.eq_def]
    cases e with
    | withThen if_cond items =>
      simp only [manifestCount_append]
      have h1 := processItems_manifest_credit f sh gm gb assets tag version repo if_cond
        items cache
      have h2 := ih (processItems f sh gm gb assets tag version repo if_cond cache items).cache
      omega
    | withUrl url sha =>
      have h1 := processItem_manifest_credit f sh gm gb assets tag version repo "" cache
        (.dict url sha)
      have h2 := ih (processItem f sh gm gb assets tag version repo "" cache
        (.dict url sha)).cache
      rcases hi : (processItem f sh gm gb assets tag version repo "" cache
          (.dict url sha)).item with ⟨u2, s2⟩ | _
      all_goals
        simp only [hi, manifestCount_append]
      all_goals omega
    | otherEntry =>
      simp only [manifestCount_append]
      have h2 := ih cache
      have h0 : manifestCount ([] : List NetEvent) = 0 := rfl
      omega

theorem processItems_length (f : String → NetResult) (sh : String → String)
    (gm : String → ManifestResult) (gb : Option String) (assets : List ReleaseAsset)
    (tag version repo if_cond : String) :
    ∀ (items : List Item) (cache : Option (List (String × String))),
    (processItems f sh gm gb assets tag version repo if_cond cache items).items.length
      = items.length := by
  intro items
  induction items with
  | nil => intro cache; simp [processItems]
  | cons i rest ih =>
    intro cache
    rw [processItems]
    simp [ih]

/-! ## Equations for `compute_sha_for_asset`, one per configuration -/

theorem compute_sha_eq_digest (f : String → NetResult) (sh : String → String)
    (a : ReleaseAsset) (rel : List ReleaseAsset) (h : String)
    (hd : digestOf a = some h) :
    compute_sha_for_asset f sh a rel = (.ok h, []) := by
  rw [compute_sha_for_asset, hd]

theorem compute_sha_eq_noname (f : String → NetResult) (sh : String → String)
    (a : ReleaseAsset) (rel : List ReleaseAsset)
    (hd : digestOf a = none) (hn : a.name = none) :
    compute_sha_for_asset f sh a rel = (.error .noName, []) := by
  rw [compute_sha_for_asset, hd, hn]

theorem compute_sha_eq_emptyname (f : String → NetResult) (sh : String → String)
    (a : ReleaseAsset) (rel : List ReleaseAsset) (an : String)
    (hd : digestOf a = none) (hn : a.name = some an) (he : an.isEmpty = true) :
    compute_sha_for_asset f sh a rel = (.error .noName, []) := by
  rw [compute_sha_for_asset, hd, hn]
  simp [he]

theorem compute_sha_eq_stage2_found (f : String → NetResult) (sh : String → String)
    (a : ReleaseAsset) (rel : List ReleaseAsset) (an hx : String)
    (hd : digestOf a = none) (hn : a.name = some an) (he : an.isEmpty = false)
    (h2 : (tryChecksumSuffixes f an rel possible_suffixes).1 = .found hx) :
    compute_sha_for_asset f sh a rel
      = (.ok hx, (tryChecksumSuffixes f an rel possible_suffixes).2) := by
  rw [compute_sha_for_asset, hd, hn]
  simp only [he, Bool.false_eq_true, if_false, h2]

theorem compute_sha_eq_stage2_aborted (f : String → NetResult) (sh : String → String)
    (a : ReleaseAsset) (rel : List ReleaseAsset) (an : String)
    (hd : digestOf a = none) (hn : a.name = some an) (he : an.isEmpty = false)
    (h2 : (tryChecksumSuffixes f an rel possible_suffixes).1 = .aborted) :
    compute_sha_for_asset f sh a rel
      = (.error .netExn, (tryChecksumSuffixes f an rel possible_suffixes).2) := by
  rw [compute_sha_for_asset, hd, hn]
  simp only [he, Bool.false_eq_true, if_false, h2]

theorem compute_sha_eq_stage3_found (f : String → NetResult) (sh : String → String)
    (a : ReleaseAsset) (rel : List ReleaseAsset) (an hx : String)
    (hd : digestOf a = none) (hn : a.name = some an) (he : an.isEmpty = false)
    (h2 : (tryChecksumSuffixes f an rel possible_suffixes).1 = .exhausted)
    (h3 : (scanChecksumAssets f an rel).1 = .found hx) :
    compute_sha_for_asset f sh a rel
      = (.ok hx, (tryChecksumSuffixes f an rel possible_suffixes).2
          ++ (scanChecksumAssets f an rel).2) := by
  rw [compute_sha_for_asset, hd, hn]
  simp only [he, Bool.false_eq_true, if_false, h2, h3]

theorem compute_sha_eq_stage3_aborted (f : String → NetResult) (sh : String → String)
    (a : ReleaseAsset) (rel : List ReleaseAsset) (an : String)
    (hd : digestOf a = none) (hn : a.name = some an) (he : an.isEmpty = false)
    (h2 : (tryChecksumSuffixes f an rel possible_suffixes).1 = .exhausted)
    (h3 : (scanChecksumAssets f an rel).1 = .aborted) :
    compute_sha_for_asset f sh a rel
      = (.error .netExn, (tryChecksumSuffixes f an rel possible_suffixes).2
          ++ (scanChecksumAssets f an rel).2) := by
  rw [compute_sha_for_asset, hd, hn]
  simp only [he, Bool.false_eq_true, if_false, h2, h3]

theorem compute_sha_eq_download (f : String → NetResult) (sh : String → String)
    (a : ReleaseAsset) (rel : List ReleaseAsset) (an : String)
    (hd : digestOf a = none) (hn : a.name = some an) (he : an.isEmpty = false)
    (h2 : (tryChecksumSuffixes f an rel possible_suffixes).1 = .exhausted)
    (h3 : (scanChecksumAssets f an rel).1 = .exhausted) :
    compute_sha_for_asset f sh a rel
      = ((downloadAndHash f sh a).1,
         (tryChecksumSuffixes f an rel possible_suffixes).2
           ++ (scanChecksumAssets f an rel).2 ++ (downloadAndHash f sh a).2) := by
  rw [compute_sha_for_asset, hd, hn]
  simp only [he, Bool.false_eq_true, if_false, h2, h3]

/-! ## Download-freeness of the early stages -/

theorem any_eq_false_of_all_not {l : List NetEvent} {p q : NetEvent → Bool}
    (hpq : ∀ e, p e = true → q e = false) (h : l.all p = true) : l.any q = false := by
  rw [List.all_eq_true] at h
  rw [List.any_eq_false]
  intro e he
  have hq := hpq e (h e he)
  simp [hq]

theorem sidecar_not_download : ∀ e, isSidecarEv e = true → isDownloadEv e = false := by
  intro e h
  cases e <;> simp_all [isSidecarEv, isDownloadEv]

theorem scan_not_download : ∀ e, isScanEv e = true → isDownloadEv e = false := by
  intro e h
  cases e <;> simp_all [isScanEv, isDownloadEv]

theorem tryChecksumSuffixes_no_download (f : String → NetResult) (an : String)
    (rel : List ReleaseAsset) (ss : List String) :
    (tryChecksumSuffixes f an rel ss).2.any isDownloadEv = false :=
  any_eq_false_of_all_not sidecar_not_download
    (tryChecksumSuffixes_events_shape f an rel ss)

theorem scanChecksumAssets_no_download (f : String → NetResult) (an : String)
    (rel : List ReleaseAsset) :
    (scanChecksumAssets f an rel).2.any isDownloadEv = false :=
  any_eq_false_of_all_not scan_not_download
    (scanChecksumAssets_events_shape f an rel)

/-! ## Concrete fixtures used by witnesses and counterexamples -/

/-- A network oracle: the sidecar url `"cs"` raises (timeout/connection
error); the download url `"dl"` answers 200. -/
def fetch0 : String → NetResult := fun u =>
  if u = "cs" then NetResult.exn
  else if u = "dl" then NetResult.resp 200 "bytes"
  else NetResult.exn

def sha0 : String → String := fun _ => "deadbeef"

def asset0 : ReleaseAsset := ⟨some "f.tar.gz", some "dl", none⟩

def sidecar0 : ReleaseAsset := ⟨some "f.tar.gz.sha256", some "cs", none⟩

def rel0 : List ReleaseAsset := [asset0, sidecar0]

/-- An asset carrying an inline digest, in a release that also has a
sidecar checksum asset. -/
def w3asset : ReleaseAsset := ⟨some "f.tar.gz", some "dl", some "sha256:abc123"⟩

def rel3 : List ReleaseAsset := [w3asset, sidecar0]

/-! ## C1 -/

/-- C1 counterexample: the claim says a network error at the sidecar-fetch
stage falls through to the next stage; in fact `compute_sha_for_asset`
raises the exception and aborts the asset's resolution, even though the
download stage (available and working: `fetch0 "dl"` answers 200) never
runs. -/
theorem c1_counterexample :
    compute_sha_for_asset fetch0 sha0 asset0 rel0
        = (.error .netExn, [.sidecarFetch "cs"]) ∧
    fetch0 "dl" = .resp 200 "bytes" ∧
    asset0.browser_download_url = some "dl" :=
  ⟨rfl, rfl, rfl⟩

/-- C1 (amended): in `compute_sha_for_asset`, parse failures at the early
stages (unparsable inline digest, fetched checksum text yielding no hash)
fall through, so that when stages 1-3 are exhausted the download stage
runs; but a network error (raised exception) during a sidecar fetch or a
checksum-scan fetch aborts the resolution of that asset with an error, and
the download stage does not run. -/
theorem c1_parse_fallthrough_network_aborts (f : String → NetResult)
    (sh : String → String) (a : ReleaseAsset) (rel : List ReleaseAsset) (an : String)
    (hd : digestOf a = none) (hn : a.name = some an) (he : an.isEmpty = false) :
    ((tryChecksumSuffixes f an rel possible_suffixes).1 = .exhausted →
      (scanChecksumAssets f an rel).1 = .exhausted →
      compute_sha_for_asset f sh a rel
        = ((downloadAndHash f sh a).1,
           (tryChecksumSuffixes f an rel possible_suffixes).2
             ++ (scanChecksumAssets f an rel).2 ++ (downloadAndHash f sh a).2)) ∧
    ((tryChecksumSuffixes f an rel possible_suffixes).1 = .aborted →
      (compute_sha_for_asset f sh a rel).1 = .error .netExn ∧
      (compute_sha_for_asset f sh a rel).2.any isDownloadEv = false) ∧
    ((tryChecksumSuffixes f an rel possible_suffixes).1 = .exhausted →
      (scanChecksumAssets f an rel).1 = .aborted →
      (compute_sha_for_asset f sh a rel).1 = .error .netExn ∧
      (compute_sha_for_asset f sh a rel).2.any isDownloadEv = false) := by
  refine ⟨?_, ?_, ?_⟩
  · intro h2 h3
    exact compute_sha_eq_download f sh a rel an hd hn he h2 h3
  · intro h2
    rw [compute_sha_eq_stage2_aborted f sh a rel an hd hn he h2]
    exact ⟨rfl, tryChecksumSuffixes_no_download f an rel possible_suffixes⟩
  · intro h2 h3
    rw [compute_sha_eq_stage3_aborted f sh a rel an hd hn he h2 h3]
    refine ⟨rfl, ?_⟩
    simp only [List.any_append, tryChecksumSuffixes_no_download,
      scanChecksumAssets_no_download, Bool.or_self]

/-- C1 amended witness: at the concrete fixture, the sidecar fetch raises,
and resolution aborts with a network error without downloading. -/
theorem c1_amended_witness :
    digestOf asset0 = none ∧
    (tryChecksumSuffixes fetch0 "f.tar.gz" rel0 possible_suffixes).1 = .aborted ∧
    (compute_sha_for_asset fetch0 sha0 asset0 rel0).1 = .error .netExn ∧
    (compute_sha_for_asset fetch0 sha0 asset0 rel0).2.any isDownloadEv = false :=
  ⟨rfl, rfl,
    ((c1_parse_fallthrough_network_aborts fetch0 sha0 asset0 rel0 "f.tar.gz"
      rfl rfl rfl).2.1 rfl).1,
    ((c1_parse_fallthrough_network_aborts fetch0 sha0 asset0 rel0 "f.tar.gz"
      rfl rfl rfl).2.1 rfl).2⟩

/-! ## C3 -/

/-- C3: when the asset's inline digest field is present and parsable
(`digestOf` yields a hex value), `compute_sha_for_asset` returns exactly
that value and performs no network call at all (empty trace), whatever
sidecar checksum assets exist in the release. -/
theorem c3_inline_digest_short_circuits (f : String → NetResult) (sh : String → String)
    (a : ReleaseAsset) (rel : List ReleaseAsset) (h : String)
    (hd : digestOf a = some h) :
    compute_sha_for_asset f sh a rel = (.ok h, []) :=
  compute_sha_eq_digest f sh a rel h hd

/-- C3 witness: an asset whose digest is `"sha256:abc123"`, in a release
that does contain a sidecar checksum asset, resolves to `"abc123"` with an
empty network trace. -/
theorem c3_witness :
    digestOf w3asset = some "abc123" ∧
    compute_sha_for_asset fetch0 sha0 w3asset rel3 = (.ok "abc123", []) :=
  ⟨rfl, c3_inline_digest_short_circuits fetch0 sha0 w3asset rel3 "abc123" rfl⟩

/-! ## C4 -/

/-- C4: the asset itself is downloaded only when the inline digest is
absent/unparsable and both checksum-file stages are exhausted without a
hash; and whenever an earlier stage yields a hash, that hash is returned
and no download occurs. -/
theorem c4_download_only_as_last_resort (f : String → NetResult) (sh : String → String)
    (a : ReleaseAsset) (rel : List ReleaseAsset) :
    ((compute_sha_for_asset f sh a rel).2.any isDownloadEv = true →
      digestOf a = none ∧
      ∃ an, a.name = some an ∧ an.isEmpty = false ∧
        (tryChecksumSuffixes f an rel possible_suffixes).1 = .exhausted ∧
        (scanChecksumAssets f an rel).1 = .exhausted) ∧
    (∀ h, digestOf a = some h →
      (compute_sha_for_asset f sh a rel).1 = .ok h ∧
      (compute_sha_for_asset f sh a rel).2.any isDownloadEv = false) ∧
    (∀ an h, digestOf a = none → a.name = some an → an.isEmpty = false →
      (tryChecksumSuffixes f an rel possible_suffixes).1 = .found h →
      (compute_sha_for_asset f sh a rel).1 = .ok h ∧
      (compute_sha_for_asset f sh a rel).2.any isDownloadEv = false) ∧
    (∀ an h, digestOf a = none → a.name = some an → an.isEmpty = false →
      (tryChecksumSuffixes f an rel possible_suffixes).1 = .exhausted →
      (scanChecksumAssets f an rel).1 = .found h →
      (compute_sha_for_asset f sh a rel).1 = .ok h ∧
      (compute_sha_for_asset f sh a rel).2.any isDownloadEv = false) := by
  refine ⟨?_, ?_, ?_, ?_⟩
  · intro hany
    cases hd : digestOf a with
    | some hex =>
      rw [compute_sha_eq_digest f sh a rel hex hd] at hany
      simp at hany
    | none =>
      refine ⟨rfl, ?_⟩
      cases hn : a.name with
      | none =>
        rw [compute_sha_eq_noname f sh a rel hd hn] at hany
        simp at hany
      | some an =>
        cases he : an.isEmpty with
        | true =>
          rw [compute_sha_eq_emptyname f sh a rel an hd hn he] at hany
          simp at hany
        | false =>
          refine ⟨an, rfl, he, ?_⟩
          cases h2 : (tryChecksumSuffixes f an rel possible_suffixes).1 with
          | found hx =>
            rw [compute_sha_eq_stage2_found f sh a rel an hx hd hn he h2] at hany
            rw [tryChecksumSuffixes_no_download f an rel possible_suffixes] at hany
            exact absurd hany (by simp)
          | aborted =>
            rw [compute_sha_eq_stage2_aborted f sh a rel an hd hn he h2] at hany
            rw [tryChecksumSuffixes_no_download f an rel possible_suffixes] at hany
            exact absurd hany (by simp)
          | exhausted =>
            refine ⟨rfl, ?_⟩
            cases h3 : (scanChecksumAssets f an rel).1 with
            | found hx =>
              rw [compute_sha_eq_stage3_found f sh a rel an hx hd hn he h2 h3] at hany
              simp only [List.any_append, tryChecksumSuffixes_no_download,
                scanChecksumAssets_no_download, Bool.or_self] at hany
              exact absurd hany (by simp)
            | aborted =>
              rw [compute_sha_eq_stage3_aborted f sh a rel an hd hn he h2 h3] at hany
              simp only [List.any_append, tryChecksumSuffixes_no_download,
                scanChecksumAssets_no_download, Bool.or_self] at hany
              exact absurd hany (by simp)
            | exhausted => rfl
  · intro h hd
    rw [compute_sha_eq_digest f sh a rel h hd]
    exact ⟨rfl, rfl⟩
  · intro an h hd hn he h2
    rw [compute_sha_eq_stage2_found f sh a rel an h hd hn he h2]
    exact ⟨rfl, tryChecksumSuffixes_no_download f an rel possible_suffixes⟩
  · intro an h hd hn he h2 h3
    rw [compute_sha_eq_stage3_found f sh a rel an h hd hn he h2 h3]
    refine ⟨rfl, ?_⟩
    simp only [List.any_append, tryChecksumSuffixes_no_download,
      scanChecksumAssets_no_download, Bool.or_self]

/-- A network oracle whose sidecar url answers with a parsable checksum
text naming the target file. -/
def w4fetch : String → NetResult := fun u =>
  if u = "cs" then NetResult.resp 200 "cafebabe  f.tar.gz"
  else if u = "dl" then NetResult.resp 200 "bytes"
  else NetResult.exn

/-- C4 witness: a release whose sidecar checksum file parses; the hash from
stage 2 is returned and the trace holds no download. -/
theorem c4_witness :
    digestOf asset0 = none ∧
    (tryChecksumSuffixes w4fetch "f.tar.gz" rel0 possible_suffixes).1
        = .found "cafebabe" ∧
    (compute_sha_for_asset w4fetch sha0 asset0 rel0).1 = .ok "cafebabe" ∧
    (compute_sha_for_asset w4fetch sha0 asset0 rel0).2.any isDownloadEv = false :=
  ⟨rfl, rfl,
    ((c4_download_only_as_last_resort w4fetch sha0 asset0 rel0).2.2.1
      "f.tar.gz" "cafebabe" rfl rfl rfl rfl).1,
    ((c4_download_only_as_last_resort w4fetch sha0 asset0 rel0).2.2.1
      "f.tar.gz" "cafebabe" rfl rfl rfl rfl).2⟩

/-! ## Facts about asset-name resolution -/

/-- With an empty platform predicate, every hardcoded table branch is off
(`"linux"`/`"osx"` are not substrings of `""`). -/
theorem asset_name_for_empty_cond (tag : String) (repo : Option String) :
    asset_name_for "" tag repo = none := by
  have h1 : strContains "" "linux" = false := rfl
  have h2 : strContains "" "osx" = false := rfl
  simp [asset_name_for, h1, h2]

/-- Whatever `asset_name_from_recipe_pattern` yields is exactly the
trailing segment of the substituted URL. -/
theorem pattern_yields_trailing (url if_cond : String) (version : Option String)
    (n : String)
    (h : asset_name_from_recipe_pattern (some url) if_cond version = some n) :
    trailingSegment (substitutedUrl url version) = some n := by
  simp only [asset_name_from_recipe_pattern] at h
  repeat' split at h
  all_goals
    first
    | exact Option.noConfusion h
    | (rename_i hseg htz
       rw [hseg]
       exact congrArg some (Option.some.inj h))

/-! ## C6 -/

def urlC6 : String := "https://a/b\x7d.zip"

/-- C6 counterexample: the claim reads "any remaining brace"; this URL
still contains a (closing) brace after substitution, yet pattern
resolution returns a name — the source checks only for `{`. -/
theorem c6_counterexample :
    strContains (substitutedUrl urlC6 (some "1")) "\x7d" = true ∧
    asset_name_from_recipe_pattern (some urlC6) "" (some "1") = some "b\x7d.zip" :=
  ⟨rfl, rfl⟩

/-- C6 (amended): for every recipe URL template that, after substituting
the version placeholder, still contains an unresolved OPENING brace (which
every `$\x7b\x7b ... \x7d\x7d` placeholder contains), pattern-based
resolution returns no result. -/
theorem c6_unresolved_open_brace (url if_cond : String) (version : Option String)
    (h : strContains (substitutedUrl url version) "\x7b" = true) :
    asset_name_from_recipe_pattern (some url) if_cond version = none := by
  simp only [asset_name_from_recipe_pattern]
  cases he : url.isEmpty with
  | true => simp
  | false => simp [he, h]

def urlC6w : String := "https://a/$\x7b\x7b arch \x7d\x7d/x.tar.gz"

/-- C6 amended witness: a URL with an unresolved non-version placeholder
keeps its opening brace and resolves to nothing. -/
theorem c6_witness :
    strContains (substitutedUrl urlC6w (some "1")) "\x7b" = true ∧
    asset_name_from_recipe_pattern (some urlC6w) "" (some "1") = none :=
  ⟨rfl, c6_unresolved_open_brace urlC6w "" (some "1") rfl⟩

/-! ## C7 -/

def urlC7 : String := "https://e/t-$\x7b\x7b version \x7d\x7d.tar.gz"

/-- C7 counterexample: for an unconditional source entry whose URL embeds
the version placeholder, resolution returns the segment with the version
substituted — not the URL's trailing path segment unchanged. -/
theorem c7_counterexample :
    deriveAssetName "" "v9" none (some "9") urlC7 = some "t-9.tar.gz" ∧
    trailingSegment urlC7 = some "t-$\x7b\x7b version \x7d\x7d.tar.gz" ∧
    deriveAssetName "" "v9" none (some "9") urlC7 ≠ trailingSegment urlC7 := by
  refine ⟨rfl, rfl, ?_⟩
  decide

/-- C7 (amended): for an unconditional source entry whose non-empty URL is
unchanged by version substitution (no placeholder, no surrounding
whitespace) and has a non-empty trailing path segment, asset-name
resolution returns that trailing segment unchanged. -/
theorem c7_unconditional_trailing_segment (tag : String) (repo : Option String)
    (version : Option String) (url s : String)
    (hsub : substitutedUrl url version = url)
    (htr : trailingSegment url = some s) :
    deriveAssetName "" tag repo version url = some s := by
  simp only [deriveAssetName]
  rw [asset_name_for_empty_cond]
  cases hp : asset_name_from_recipe_pattern (some url) "" version with
  | none => simp [htr, show ("" : String).isEmpty = true from rfl]
  | some n =>
    have h2 := pattern_yields_trailing url "" version n hp
    rw [hsub, htr] at h2
    injection h2 with h3
    rw [h3]

/-- C7 amended witness: a plain unconditional URL resolves to its trailing
segment unchanged. -/
theorem c7_witness :
    substitutedUrl "https://a/gemini.js" (some "9") = "https://a/gemini.js" ∧
    trailingSegment "https://a/gemini.js" = some "gemini.js" ∧
    deriveAssetName "" "v9" (some "other") (some "9") "https://a/gemini.js"
      = some "gemini.js" :=
  ⟨rfl, rfl,
    c7_unconditional_trailing_segment "v9" (some "other") (some "9")
      "https://a/gemini.js" "gemini.js" rfl rfl⟩

/-! ## C2 -/

def gm0 : String → ManifestResult := fun _ => ManifestResult.exn

/-- C2: for a source item with a truthy url that is not a GCS source, if no
asset name can be derived, or no release asset matches the derived name, or
checksum computation raises, the item is returned exactly unchanged (its
sha256 keeps its prior value) and a diagnostic is emitted; and the loop
processes every item (one output item per input item). -/
theorem c2_failure_keeps_sha_and_continues :
    (∀ (f : String → NetResult) (sh : String → String) (gm : String → ManifestResult)
       (gb : Option String) (assets : List ReleaseAsset)
       (tag version repo if_cond : String)
       (cache : Option (List (String × String))) (u : String) (sha : Option String),
      u.isEmpty = false →
      isGcsSource u gb = false →
      (deriveAssetName if_cond tag (some repo) (some version) u = none ∨
       (∃ n, deriveAssetName if_cond tag (some repo) (some version) u = some n ∧
          find_asset assets n = none) ∨
       (∃ n a e, deriveAssetName if_cond tag (some repo) (some version) u = some n ∧
          find_asset assets n = some a ∧
          (compute_sha_for_asset f sh a assets).1 = .error e)) →
      (processItem f sh gm gb assets tag version repo if_cond cache
          (.dict (some u) sha)).item = .dict (some u) sha ∧
      (processItem f sh gm gb assets tag version repo if_cond cache
          (.dict (some u) sha)).msgs ≠ []) ∧
    (∀ (f : String → NetResult) (sh : String → String) (gm : String → ManifestResult)
       (gb : Option String) (assets : List ReleaseAsset)
       (tag version repo if_cond : String)
       (cache : Option (List (String × String))) (items : List Item),
      (processItems f sh gm gb assets tag version repo if_cond cache items).items.length
        = items.length) := by
  constructor
  · intro f sh gm gb assets tag version repo if_cond cache u sha hu hg hfail
    rw [processItem.eq_def]
    dsimp only
    simp only [hu, Bool.false_eq_true, if_false, hg]
    rcases hfail with hd | ⟨n, hd, hf⟩ | ⟨n, a, e, hd, hf, hc⟩
    · simp [hd]
    · simp [hd, hf]
    · simp [hd, hf, hc]
  · intro f sh gm gb assets tag version repo if_cond cache items
    exact processItems_length f sh gm gb assets tag version repo if_cond items cache

/-- C2 witness: an entry whose name cannot be derived keeps its old sha256
and produces a diagnostic. -/
theorem c2_witness :
    isGcsSource "https://a/x.bin" none = false ∧
    deriveAssetName "linux" "v1" (some "other") (some "1") "https://a/x.bin" = none ∧
    (processItem fetch0 sha0 gm0 none [] "v1" "1" "other" "linux" none
        (.dict (some "https://a/x.bin") (some "oldsha"))).item
      = .dict (some "https://a/x.bin") (some "oldsha") ∧
    (processItem fetch0 sha0 gm0 none [] "v1" "1" "other" "linux" none
        (.dict (some "https://a/x.bin") (some "oldsha"))).msgs ≠ [] :=
  ⟨rfl, rfl,
    (c2_failure_keeps_sha_and_continues.1 fetch0 sha0 gm0 none [] "v1" "1" "other"
      "linux" none "https://a/x.bin" (some "oldsha") rfl rfl (Or.inl rfl)).1,
    (c2_failure_keeps_sha_and_continues.1 fetch0 sha0 gm0 none [] "v1" "1" "other"
      "linux" none "https://a/x.bin" (some "oldsha") rfl rfl (Or.inl rfl)).2⟩

/-! ## C5 -/

/-- The checksum table every GCS lookup of a run uses: the parsed manifest
for this version when the fetch succeeds, the empty table when it raises. -/
def gcsTableOf (gm : String → ManifestResult) (version : String) :
    List (String × String) :=
  match gm (manifestUrlFor version) with
  | .ok ps => gcsChecksumTable ps
  | .exn => []

theorem gcs_platform_nonempty (ic p : String)
    (h : gcs_platform_for_if_cond ic = some p) : p.isEmpty = false := by
  unfold gcs_platform_for_if_cond at h
  repeat' split at h
  all_goals
    first
    | exact Option.noConfusion h
    | (injection h with h2
       rw [← h2]
       rfl)

/-- C5: (i) a GCS-bucket source entry whose platform predicate maps to a
platform key carried (with nonempty checksum) by the fetched manifest gets
exactly the manifest's checksum string written into its sha256, from any
cache state the run can be in; (ii) over a whole run the manifest is
fetched at most once; (iii) a GCS entry performs no sidecar checksum fetch
and no asset download. -/
theorem c5_gcs_manifest_checksums :
    (∀ (f : String → NetResult) (sh : String → String) (gm : String → ManifestResult)
       (gb : Option String) (assets : List ReleaseAsset)
       (tag version repo if_cond : String)
       (cache : Option (List (String × String))) (u : String) (sha : Option String)
       (p s : String),
      u.isEmpty = false →
      isGcsSource u gb = true →
      (cache = none ∨ cache = some (gcsTableOf gm version)) →
      gcs_platform_for_if_cond if_cond = some p →
      lookupStr (gcsTableOf gm version) p = some s →
      s.isEmpty = false →
      (processItem f sh gm gb assets tag version repo if_cond cache
          (.dict (some u) sha)).item = .dict (some u) (some s)) ∧
    (∀ (f : String → NetResult) (sh : String → String) (gm : String → ManifestResult)
       (gb : Option String) (assets : List ReleaseAsset) (tag version repo : String)
       (entries : List SourceEntry),
      manifestCount
        (processEntries f sh gm gb assets tag version repo none entries).events ≤ 1) ∧
    (∀ (f : String → NetResult) (sh : String → String) (gm : String → ManifestResult)
       (gb : Option String) (assets : List ReleaseAsset)
       (tag version repo if_cond : String)
       (cache : Option (List (String × String))) (u : String) (sha : Option String),
      isGcsSource u gb = true →
      (processItem f sh gm gb assets tag version repo if_cond cache
          (.dict (some u) sha)).events.all (fun e => !isChecksumChainEv e) = true) := by
  refine ⟨?_, ?_, ?_⟩
  · intro f sh gm gb assets tag version repo if_cond cache u sha p s hu hg hcache hp
      hlook hs
    rw [processItem.eq_def]
    dsimp only
    simp only [hu, Bool.false_eq_true, if_false, hg, if_true]
    have hpne : p.isEmpty = false := gcs_platform_nonempty if_cond p hp
    rcases hcache with rfl | rfl
    · cases hgm : gm (manifestUrlFor version) with
      | ok ps =>
        have ht : gcsTableOf gm version = gcsChecksumTable ps := by
          simp [gcsTableOf, hgm]
        rw [ht] at hlook
        simp [hgm, hp, hpne, hlook, hs]
      | exn =>
        have ht : gcsTableOf gm version = [] := by
          simp [gcsTableOf, hgm]
        rw [ht] at hlook
        simp [lookupStr] at hlook
    · simp [hp, hpne, hlook, hs]
  · intro f sh gm gb assets tag version repo entries
    have h := processEntries_manifest_credit f sh gm gb assets tag version repo
      entries none
    have h1 : cacheCredit none = 1 := rfl
    omega
  · intro f sh gm gb assets tag version repo if_cond cache u sha hg
    rw [processItem.eq_def]
    dsimp only
    cases hu : u.isEmpty with
    | true => simp [hu]
    | false =>
      simp only [hu, Bool.false_eq_true, if_false, hg, if_true]
      cases cache with
      | some t => simp
      | none => cases gm (manifestUrlFor version) <;>
          simp [isChecksumChainEv, isSidecarEv, isScanEv, isDownloadEv]

def gm5 : String → ManifestResult :=
  fun _ => ManifestResult.ok [("linux-x64", .entry "cafe")]

def gcsUrl5 : String := CLAUDE_CODE_GCS_BUCKET ++ "/1.2.3/claude-linux"

set_option maxRecDepth 8192 in
/-- C5 witness: a bucket-based entry for linux/x86_64 receives exactly the
manifest's checksum for `linux-x64`. -/
theorem c5_witness :
    isGcsSource gcsUrl5 none = true ∧
    gcs_platform_for_if_cond "linux and x86_64" = some "linux-x64" ∧
    lookupStr (gcsTableOf gm5 "1.2.3") "linux-x64" = some "cafe" ∧
    (processItem fetch0 sha0 gm5 none [] "v1.2.3" "1.2.3" "anthropics"
        "linux and x86_64" none (.dict (some gcsUrl5) (some "old"))).item
      = .dict (some gcsUrl5) (some "cafe") :=
  ⟨by decide, rfl, rfl,
    c5_gcs_manifest_checksums.1 fetch0 sha0 gm5 none [] "v1.2.3" "1.2.3" "anthropics"
      "linux and x86_64" none gcsUrl5 (some "old") "linux-x64" "cafe"
      rfl (by decide) (Or.inl rfl) rfl rfl rfl⟩

/-! ## C8 -/

/-- C8: with skip-existing enabled and building requested, when a package
file matching name/version/platform already exists locally, no subprocess
command is run at all: the build tool is never invoked and no upload is
attempted. -/
theorem c8_skip_existing_local (glob : String → List String)
    (runExit : List String → Int) (env : String → Option String)
    (recipe_name : String) (content : BuildDoc) (tp channel : String)
    (upload_flag : Bool)
    (h : package_exists_locally glob tp (buildNameOf content recipe_name)
          (buildVersionOf content) = true) :
    (build_recipe glob runExit env recipe_name content tp channel upload_flag
        true true).cmds = [] := by
  rw [build_recipe]
  simp [h]

def glob8 : String → List String := fun p =>
  if p = localPackagePattern "linux-64" "pkg" "1.0" then
    ["output/linux-64/pkg-1.0-h0_0.conda"]
  else []

def content8 : BuildDoc := ⟨some "1.0", some "pkg"⟩

/-- C8 witness: the locally-present package makes the builder run zero
commands. -/
theorem c8_witness :
    package_exists_locally glob8 "linux-64" (buildNameOf content8 "pkg")
        (buildVersionOf content8) = true ∧
    (build_recipe glob8 (fun _ => 0) (fun _ => none) "pkg" content8 "linux-64"
        "longred-forge" true true true).cmds = [] :=
  ⟨rfl,
    c8_skip_existing_local glob8 (fun _ => 0) (fun _ => none) "pkg" content8
      "linux-64" "longred-forge" true rfl⟩

/-! ## C9 -/

theorem updateSingleRecipe_dry_no_writes (gr : String → String → ReleaseResult)
    (gm : String → ManifestResult) (f : String → NetResult) (sh : String → String)
    (doc : Doc) (owner repo : Option String) :
    (updateSingleRecipe gr gm f sh doc owner repo true).writes = [] := by
  rw [updateSingleRecipe.eq_def]
  cases hp : parsedRepoOf doc with
  | some pr =>
    obtain ⟨o, r⟩ := pr
    simp only [Option.getD_some]
    split
    · rfl
    · cases gr o r with
      | exn => rfl
      | ok release =>
        dsimp only
        cases release.tag_name with
        | none => rfl
        | some tag =>
          dsimp only
          split
          · rfl
          · split
            · rfl
            · cases doc.source with
              | none => rfl
              | some entries => rfl
  | none =>
    dsimp only
    split
    · rfl
    · cases gr (owner.getD "") (repo.getD "") with
      | exn => rfl
      | ok release =>
        dsimp only
        cases release.tag_name with
        | none => rfl
        | some tag =>
          dsimp only
          split
          · rfl
          · split
            · rfl
            · cases doc.source with
              | none => rfl
              | some entries => rfl

/-- C9: when the apply flag is absent, `main` computes `dry = true` and the
recipe file is never written, whatever was resolved; and any write implies
apply was given and dry-run was not. -/
theorem c9_dry_run_never_writes :
    (∀ (gr : String → String → ReleaseResult) (gm : String → ManifestResult)
       (f : String → NetResult) (sh : String → String) (doc : Doc)
       (owner repo : Option String) (dry_run : Bool),
      (updateSingleRecipe gr gm f sh doc owner repo (mainDry false dry_run)).writes
        = []) ∧
    (∀ (gr : String → String → ReleaseResult) (gm : String → ManifestResult)
       (f : String → NetResult) (sh : String → String) (doc : Doc)
       (owner repo : Option String) (apply dry_run : Bool),
      (updateSingleRecipe gr gm f sh doc owner repo (mainDry apply dry_run)).writes
          ≠ [] →
      apply = true ∧ dry_run = false) := by
  constructor
  · intro gr gm f sh doc owner repo dry_run
    have hd : mainDry false dry_run = true := by simp [mainDry]
    rw [hd]
    exact updateSingleRecipe_dry_no_writes gr gm f sh doc owner repo
  · intro gr gm f sh doc owner repo apply dry_run h
    cases apply with
    | false =>
      exfalso
      apply h
      have hd : mainDry false dry_run = true := by simp [mainDry]
      rw [hd]
      exact updateSingleRecipe_dry_no_writes gr gm f sh doc owner repo
    | true =>
      cases dry_run with
      | false => exact ⟨rfl, rfl⟩
      | true =>
        exfalso
        apply h
        have hd : mainDry true true = true := by simp [mainDry]
        rw [hd]
        exact updateSingleRecipe_dry_no_writes gr gm f sh doc owner repo

def grW : String → String → ReleaseResult := fun _ _ => .ok ⟨some "v2.0", []⟩

def docW : Doc := ⟨some "1.0", none, some "https://github.com/foo/bar", none⟩

/-- C9 witness: with apply absent nothing is written even though a new
version was resolved; and a run that writes has apply set and dry-run
clear. -/
theorem c9_witness :
    (updateSingleRecipe grW gm0 fetch0 sha0 docW none none (mainDry false false)).writes
        = [] ∧
    (updateSingleRecipe grW gm0 fetch0 sha0 docW none none (mainDry true false)).writes
        ≠ [] ∧
    (true = true ∧ false = false) :=
  ⟨c9_dry_run_never_writes.1 grW gm0 fetch0 sha0 docW none none false,
    by decide,
    c9_dry_run_never_writes.2 grW gm0 fetch0 sha0 docW none none true false
      (by decide)⟩

/-! ## C10 -/

theorem updateSingleRecipe_queries_parsed (gr : String → String → ReleaseResult)
    (gm : String → ManifestResult) (f : String → NetResult) (sh : String → String)
    (doc : Doc) (owner repo : Option String) (dry : Bool) (o r : String)
    (hp : parsedRepoOf doc = some (o, r)) (ho : o.isEmpty = false)
    (hr : r.isEmpty = false) :
    releaseQueriesOf (updateSingleRecipe gr gm f sh doc owner repo dry).events
      = [(o, r)] := by
  rw [updateSingleRecipe.eq_def, hp]
  dsimp only
  have hg : (!truthy (some o) || !truthy (some r)) = false := by
    simp [truthy, ho, hr]
  simp only [hg, Bool.false_eq_true, if_false, Option.getD_some]
  cases hrel : gr o r with
  | exn => rfl
  | ok release =>
    dsimp only
    cases release.tag_name with
    | none => rfl
    | some tag =>
      dsimp only
      split
      · rfl
      · split
        · rfl
        · cases doc.source with
          | none => split <;> rfl
          | some entries =>
            split <;>
              exact releaseQueriesOf_cons_query o r
                (processEntries_events_shape f sh gm _ _ _ _ _ entries none)

theorem updateSingleRecipe_queries_unparsed (gr : String → String → ReleaseResult)
    (gm : String → ManifestResult) (f : String → NetResult) (sh : String → String)
    (doc : Doc) (owner repo : Option String) (dry : Bool)
    (hp : parsedRepoOf doc = none) :
    releaseQueriesOf (updateSingleRecipe gr gm f sh doc owner repo dry).events
      = (if truthy owner && truthy repo then [(owner.getD "", repo.getD "")]
         else []) := by
  rw [updateSingleRecipe.eq_def, hp]
  dsimp only
  cases hto : truthy owner with
  | false => simp [hto, releaseQueriesOf]
  | true =>
    cases htr2 : truthy repo with
    | false => simp [hto, htr2, releaseQueriesOf]
    | true =>
      simp only [hto, htr2, Bool.not_true, Bool.or_self, Bool.false_eq_true, if_false,
        Bool.and_self, if_true]
      cases hrel : gr (owner.getD "") (repo.getD "") with
      | exn => rfl
      | ok release =>
        dsimp only
        cases release.tag_name with
        | none => rfl
        | some tag =>
          dsimp only
          split
          · rfl
          · split
            · rfl
            · cases doc.source with
              | none => split <;> rfl
              | some entries =>
                split <;>
                  exact releaseQueriesOf_cons_query (owner.getD "") (repo.getD "")
                    (processEntries_events_shape f sh gm _ _ _ _ _ entries none)


/-- C10: when the recipe's `about.repository` parses to an owner/repo pair
(with nonempty components), the release API is queried with exactly that
pair, whatever owner/repo the command line supplied; when the recipe yields
no parsable repository, the CLI pair is used (and no query happens if it is
missing or empty). -/
theorem c10_recipe_repo_overrides_cli :
    (∀ (gr : String → String → ReleaseResult) (gm : String → ManifestResult)
       (f : String → NetResult) (sh : String → String) (doc : Doc)
       (owner repo : Option String) (dry : Bool) (o r : String),
      parsedRepoOf doc = some (o, r) → o.isEmpty = false → r.isEmpty = false →
      releaseQueriesOf (updateSingleRecipe gr gm f sh doc owner repo dry).events
        = [(o, r)]) ∧
    (∀ (gr : String → String → ReleaseResult) (gm : String → ManifestResult)
       (f : String → NetResult) (sh : String → String) (doc : Doc)
       (owner repo : Option String) (dry : Bool),
      parsedRepoOf doc = none →
      releaseQueriesOf (updateSingleRecipe gr gm f sh doc owner repo dry).events
        = (if truthy owner && truthy repo then [(owner.getD "", repo.getD "")]
           else [])) :=
  ⟨fun gr gm f sh doc owner repo dry o r hp ho hr =>
     updateSingleRecipe_queries_parsed gr gm f sh doc owner repo dry o r hp ho hr,
   fun gr gm f sh doc owner repo dry hp =>
     updateSingleRecipe_queries_unparsed gr gm f sh doc owner repo dry hp⟩

/-- C10 witness: a recipe pointing at `github.com/foo/bar` overrides the
CLI-supplied owner/repo in the release query. -/
theorem c10_witness :
    parsedRepoOf docW = some ("foo", "bar") ∧
    releaseQueriesOf (updateSingleRecipe grW gm0 fetch0 sha0 docW (some "cliowner")
        (some "clirepo") true).events = [("foo", "bar")] :=
  ⟨rfl,
    c10_recipe_repo_overrides_cli.1 grW gm0 fetch0 sha0 docW (some "cliowner")
      (some "clirepo") true "foo" "bar" rfl rfl rfl⟩

end Forge
